import Mathlib

/-!
Shallow embedding of the NovaStream browser video gallery
(types.ts, geminiService.ts, App.tsx, VideoPlayer.tsx).

State that lives in the browser is made explicit:
`Stores` carries the blob store (IndexedDB-style key to bytes map,
accessed through `saveVideoBlob` / `getVideoBlob` / `deleteVideoBlob` /
`clearAllBlobs`) and the metadata document
(`localStorage` key `novastream_videos`, a JSON array of records).
Nondeterministic inputs of the real code (freshly generated UUIDs,
timestamps, the generated thumbnail data URL, the remote analysis
outcome, and which storage step throws) are passed in explicitly via
`UploadEnv`.
-/

namespace NovaStream

/-- Source `types.ts`: `Comment` interface. The `isAdmin` field is what the
spec calls `postedAsAdmin`. -/
structure Comment where
  id : String
  author : String
  text : String
  timestamp : String
  isAdmin : Bool
deriving Repr, DecidableEq

/-- Source `types.ts`: `VideoMetadata` interface. `aiAnalysis?` and
`comments?` are optional in the source, hence `Option` here; `tags` is a
required field. -/
structure VideoMetadata where
  id : String
  title : String
  description : String
  fileName : String
  originalName : String
  size : Nat
  type : String
  uploadDate : String
  thumbnailUrl : String
  videoUrl : String
  aiAnalysis : Option String
  tags : List String
  comments : Option (List Comment)
deriving Repr, DecidableEq

/-- A browser `File` value as the upload pipeline observes it:
`file.name`, `file.size`, `file.type`. -/
structure VFile where
  name : String
  size : Nat
  type : String
deriving Repr, DecidableEq

/-- The result of `JSON.parse(response.text || '{}')` in
`analyzeVideoThumbnail`: a JS object whose three expected fields may each
be absent (`none` models `undefined`). -/
structure AiData where
  title : Option String
  description : Option String
  tags : Option (List String)
deriving Repr, DecidableEq

/-- Outcome of the remote `ai.models.generateContent` call combined with
the subsequent `JSON.parse`:
`callFailed` models the awaited call rejecting (network error, timeout);
`unparseable` models a response whose text `JSON.parse` cannot parse
(the parse happens inside the `try`, so it is absorbed by the `catch`);
`parsed d` models a successful parse producing the JS object `d`. -/
inductive GeminiOutcome where
  | callFailed
  | unparseable
  | parsed (d : AiData)
deriving Repr, DecidableEq

/-- Helper for `jsSplit`: split a character list at every occurrence of
the separator; always returns at least one (possibly empty) piece, like
JS `split`. -/
def splitCharList (sep : Char) : List Char → List (List Char)
  | [] => [[]]
  | c :: cs =>
    if c = sep then [] :: splitCharList sep cs
    else
      match splitCharList sep cs with
      | h :: t => (c :: h) :: t
      | [] => [[c]]

/-- JS `str.split(sep)` for a one-character separator: `"".split('.')`
is `[""]`, `".mp4".split('.')` is `["", "mp4"]`. -/
def jsSplit (sep : Char) (s : String) : List String :=
  (splitCharList sep s.data).map String.mk

/-- JS `str.trim()`: strip leading and trailing whitespace. -/
def jsTrim (s : String) : String :=
  String.mk (((s.data.dropWhile Char.isWhitespace).reverse.dropWhile
    Char.isWhitespace).reverse)

/-- Source `geminiService.ts`, the `catch` branch of
`analyzeVideoThumbnail`: `fileName.split('.')[0]` is the part of the name
before the FIRST dot (JS `split` then index 0). -/
def geminiFallback (fileName : String) : AiData :=
  { title := some ((jsSplit '.' fileName).headD "")
    description := some "No description generated."
    tags := some ["video"] }

/-- Source `geminiService.ts`: `analyzeVideoThumbnail`. The remote call
and the JSON parse both sit inside `try ... catch`, so any failure yields
the deterministic fallback; the function is total (it never raises). A
successfully parsed object is returned as-is, without shape checks. -/
def analyzeVideoThumbnail (outcome : GeminiOutcome) (fileName : String) : AiData :=
  match outcome with
  | GeminiOutcome.parsed d => d
  | GeminiOutcome.callFailed => geminiFallback fileName
  | GeminiOutcome.unparseable => geminiFallback fileName

/-- The blob store contents: id keyed video payloads. -/
abbrev BlobStore := List (String × VFile)

/-- Modelled from the spec: `storageService.ts` is imported by `App.tsx`
but its source is not provided. Spec section 4.2 gives the Blob Store
contract `put(id, bytes)` storing raw payloads keyed by id; `put` on an
existing id overwrites. -/
def saveVideoBlob (bs : BlobStore) (id : String) (file : VFile) : BlobStore :=
  (id, file) :: bs.filter (fun p => p.1 != id)

/-- Modelled from the spec: Blob Store `get(id)`, spec section 4.2 —
returns the bytes, or an explicit "not found" (here `none`), never an
exception. -/
def getVideoBlob (bs : BlobStore) (id : String) : Option VFile :=
  (bs.find? (fun p => p.1 == id)).map Prod.snd

/-- Modelled from the spec: Blob Store `delete(id)`, spec section 4.2. -/
def deleteVideoBlob (bs : BlobStore) (id : String) : BlobStore :=
  bs.filter (fun p => p.1 != id)

/-- Modelled from the spec: Blob Store `clear()`, spec section 4.2 —
"removes all blobs unconditionally". -/
def clearAllBlobs (_bs : BlobStore) : BlobStore := []

/-- The two durable client-side stores: the blob store and the metadata
document persisted under the fixed `localStorage` key
`novastream_videos`. -/
structure Stores where
  blobs : BlobStore
  meta : List VideoMetadata
deriving Repr, DecidableEq

/-- Metadata Store `loadAll()`: reading the persisted collection
(`localStorage.getItem('novastream_videos')` followed by `JSON.parse`). -/
def loadAll (s : Stores) : List VideoMetadata := s.meta

/-- Source `App.tsx` line 8: `MAX_FILE_SIZE = 100 * 1024 * 1024`. -/
def MAX_FILE_SIZE : Nat := 100 * 1024 * 1024

/-- Source `App.tsx` line 9. -/
def ALLOWED_MIME_TYPES : List String :=
  ["video/mp4", "video/webm", "video/quicktime", "video/x-matroska"]

/-- JS `x || dflt` applied to a string field read from a parsed JSON
object: `undefined` (`none`) and the empty string are falsy. -/
def jsStringOr (v : Option String) (dflt : String) : String :=
  match v with
  | some str => if str = "" then dflt else str
  | none => dflt

/-- Result of one `handleFileUpload` call, as observable through
`uploadStatus` and the early returns:
`noFile` — no file was selected (silent return);
`unauthorized` — not admin, the login modal is shown instead;
`invalidType` — status error "Invalid file type.";
`tooLarge` — status error "File too large (Max 100MB).";
`storageFailure` — the `catch` branch, status error
"Critical storage error.";
`success rec` — status reaches `complete` with the new record. -/
inductive UploadOutcome where
  | noFile
  | unauthorized
  | invalidType
  | tooLarge
  | storageFailure
  | success (rec : VideoMetadata)
deriving Repr, DecidableEq

/-- Nondeterministic inputs of one upload run: the fresh UUID
(`crypto.randomUUID()`), the timestamp (`new Date().toISOString()`), the
thumbnail data URL produced by `generateThumbnail`, the remote analysis
outcome, and fault-injection flags saying whether `saveVideoBlob`,
`generateThumbnail` or `localStorage.setItem` throws. -/
structure UploadEnv where
  freshId : String
  now : String
  thumb : String
  aiOutcome : GeminiOutcome
  blobWriteFails : Bool
  thumbFails : Bool
  metaWriteFails : Bool
deriving Repr, DecidableEq

/-- Source `App.tsx` lines 134-159: the `newVideo` record assembled after
analysis. `extension` is `file.name.split('.').pop()`; `aiData.title ||
file.name` and `aiData.description || "Uploaded video."` treat
`undefined` and `""` as falsy; `aiData.tags || []` only replaces an
absent array (an empty array is truthy in JS and is kept). -/
def assembleRecord (env : UploadEnv) (file : VFile) : VideoMetadata :=
  let aiData := analyzeVideoThumbnail env.aiOutcome file.name
  let extension := (jsSplit '.' file.name).getLastD ""
  { id := env.freshId
    title := jsStringOr aiData.title file.name
    description := jsStringOr aiData.description "Uploaded video."
    fileName := env.freshId ++ "." ++ extension
    originalName := file.name
    size := file.size
    type := file.type
    uploadDate := env.now
    thumbnailUrl := env.thumb
    videoUrl := ""
    aiAnalysis := none
    tags := aiData.tags.getD []
    comments := some [] }

/-- Source `App.tsx` lines 112-171: `handleFileUpload`. Validation order:
admin check (login modal shown, no error state), missing file (silent
return), MIME allow-list, size ceiling — each returning before any store
is touched. Then: blob write (step 2; on throw the `catch` fires with the
stores untouched), thumbnail generation (on throw the `catch` fires, the
already-written blob stays), analysis (total, never throws), record
assembly, and the metadata commit `[newVideo, ...videos]` (on a
`localStorage` throw the persisted document is unchanged while the blob
stays; no rollback is attempted anywhere). -/
def handleFileUpload (isAdmin : Bool) (file? : Option VFile) (env : UploadEnv)
    (s : Stores) : UploadOutcome × Stores :=
  if !isAdmin then
    (UploadOutcome.unauthorized, s)
  else
    match file? with
    | none => (UploadOutcome.noFile, s)
    | some file =>
      if !(ALLOWED_MIME_TYPES.contains file.type) then
        (UploadOutcome.invalidType, s)
      else if file.size > MAX_FILE_SIZE then
        (UploadOutcome.tooLarge, s)
      else if env.blobWriteFails then
        (UploadOutcome.storageFailure, s)
      else
        let s1 : Stores := { s with blobs := saveVideoBlob s.blobs env.freshId file }
        if env.thumbFails then
          (UploadOutcome.storageFailure, s1)
        else
          let newVideo := assembleRecord env file
          if env.metaWriteFails then
            (UploadOutcome.storageFailure, s1)
          else
            (UploadOutcome.success newVideo, { s1 with meta := newVideo :: s1.meta })

/-- Source `App.tsx` lines 63-69: the `newComment` literal built by
`handleAddComment` from the session role at post time. -/
def mkComment (freshCid : String) (isAdmin : Bool) (text nowTs : String) : Comment :=
  { id := freshCid
    author := if isAdmin then "Admin" else "Guest User"
    text := text
    timestamp := nowTs
    isAdmin := isAdmin }

/-- Source `App.tsx` lines 62-91: `handleAddComment`. Maps over the
collection, appending the new comment to the record whose id matches
(`[...(v.comments || []), newComment]`), then persists the full
collection. A missing id leaves every record untouched. -/
def handleAddComment (isAdmin : Bool) (videoId text : String)
    (freshCid nowTs : String) (s : Stores) : Stores :=
  let newComment := mkComment freshCid isAdmin text nowTs
  let updatedVideos := s.meta.map (fun v =>
    if v.id == videoId then
      { v with comments := some (v.comments.getD [] ++ [newComment]) }
    else v)
  { s with meta := updatedVideos }

/-- Source `App.tsx` line 16: the `pendingDeletion` payload. Its `id`
field has TS type `string | 'all'`, i.e. a plain string where the literal
`"all"` is the bulk-purge sentinel. -/
structure PendingDeletion where
  id : String
  title : String
deriving Repr, DecidableEq

/-- Source `App.tsx` lines 200-217: `confirmDeletion`. No-op unless admin
and a deletion is pending; the sentinel id `"all"` clears both stores;
otherwise the blob under the id is deleted and the collection is
filtered by `v.id !== pendingDeletion.id`. -/
def confirmDeletion (isAdmin : Bool) (pendingDeletion : Option PendingDeletion)
    (s : Stores) : Stores :=
  if !isAdmin then s
  else
    match pendingDeletion with
    | none => s
    | some pd =>
      if pd.id == "all" then
        { blobs := clearAllBlobs s.blobs, meta := [] }
      else
        { blobs := deleteVideoBlob s.blobs pd.id
          meta := s.meta.filter (fun v => v.id != pd.id) }

/-- Look a record up by id in the persisted collection. -/
def findVideo (s : Stores) (videoId : String) : Option VideoMetadata :=
  s.meta.find? (fun v => v.id == videoId)

/-- Source `VideoPlayer.tsx` lines 16-21: `handleCommentSubmit`. The
guard is `if (!commentText.trim()) return;` — it checks that the trimmed
text is non-empty, then passes the RAW `commentText` (not its trim) to
`onAddComment`. `none` models the silent return. -/
def handleCommentSubmit (commentText : String) : Option String :=
  if jsTrim commentText = "" then none else some commentText

/-- The public comment-submission interface: `VideoPlayer`'s submit
handler feeding `App.handleAddComment` (the `onAddComment` prop). -/
def submitComment (isAdmin : Bool) (videoId commentText freshCid nowTs : String)
    (s : Stores) : Stores :=
  match handleCommentSubmit commentText with
  | none => s
  | some t => handleAddComment isAdmin videoId t freshCid nowTs s

/-- Spec section 3 invariant: every record id present in the metadata
collection has a corresponding blob in the blob store. -/
def blobConsistent (s : Stores) : Bool :=
  s.meta.all (fun v => (getVideoBlob s.blobs v.id).isSome)

/-! Concrete sample values used by the witness theorems below. -/

/-- A 50 MiB mp4 file named `clip.mp4`. -/
def file0 : VFile :=
  { name := "clip.mp4", size := 50 * 1024 * 1024, type := "video/mp4" }

/-- An upload environment where every storage step succeeds and the
remote analysis call fails. -/
def env0 : UploadEnv :=
  { freshId := "id-1"
    now := "2026-01-01T00:00:00.000Z"
    thumb := "data:image/jpeg;base64,AAAA"
    aiOutcome := GeminiOutcome.callFailed
    blobWriteFails := false
    thumbFails := false
    metaWriteFails := false }

/-- Empty stores. -/
def s0 : Stores := { blobs := [], meta := [] }

/-- The record assembled by the sample upload. -/
def upload0Rec : VideoMetadata := assembleRecord env0 file0

/-- The stores after the sample upload. -/
def upload0Stores : Stores :=
  { blobs := saveVideoBlob s0.blobs env0.freshId file0
    meta := [upload0Rec] }

/-! Helper lemmas about the blob store map operations. -/

theorem find?_filter_key_ne (bs : BlobStore) (i y : String) (h : y ≠ i) :
    (bs.filter (fun p => p.1 != i)).find? (fun p => p.1 == y) =
      bs.find? (fun p => p.1 == y) := by
  induction bs with
  | nil => rfl
  | cons hd tl ih =>
    by_cases hk : hd.1 = i
    · have h1 : (hd.1 != i) = false := by simp [hk]
      have h2 : (hd.1 == y) = false := by
        simp only [beq_eq_false_iff_ne, ne_eq]
        intro he
        exact h (he ▸ hk)
      simp [List.filter_cons, h1, h2, ih]
    · have h1 : (hd.1 != i) = true := by simp [hk]
      cases hy : (hd.1 == y) with
      | true => simp [List.filter_cons, h1, List.find?_cons, hy]
      | false => simp [List.filter_cons, h1, List.find?_cons, hy, ih]

theorem getVideoBlob_save_self (bs : BlobStore) (i : String) (f : VFile) :
    getVideoBlob (saveVideoBlob bs i f) i = some f := by
  simp [getVideoBlob, saveVideoBlob, List.find?_cons]

theorem getVideoBlob_save_ne (bs : BlobStore) (i y : String) (f : VFile)
    (h : y ≠ i) :
    getVideoBlob (saveVideoBlob bs i f) y = getVideoBlob bs y := by
  have h2 : ((i, f).1 == y) = false := by
    simp only [beq_eq_false_iff_ne, ne_eq]
    exact fun he => h he.symm
  simp [getVideoBlob, saveVideoBlob, List.find?_cons, h2,
    find?_filter_key_ne bs i y h]

theorem getVideoBlob_delete_self (bs : BlobStore) (i : String) :
    getVideoBlob (deleteVideoBlob bs i) i = none := by
  have hnone : (bs.filter (fun p => p.1 != i)).find? (fun p => p.1 == i) = none := by
    rw [List.find?_eq_none]
    intro p hp
    have := (List.mem_filter.mp hp).2
    simp only [bne_iff_ne, ne_eq] at this
    simp [this]
  simp [getVideoBlob, deleteVideoBlob, hnone]

theorem getVideoBlob_delete_ne (bs : BlobStore) (i y : String) (h : y ≠ i) :
    getVideoBlob (deleteVideoBlob bs i) y = getVideoBlob bs y := by
  simp [getVideoBlob, deleteVideoBlob, find?_filter_key_ne bs i y h]

/-! Inversion of a successful upload, and `find?` facts about the
comment-append map. -/

theorem upload_success_inv (isAdmin : Bool) (file? : Option VFile)
    (env : UploadEnv) (s : Stores) (rec : VideoMetadata) (s' : Stores)
    (h : handleFileUpload isAdmin file? env s = (UploadOutcome.success rec, s')) :
    isAdmin = true ∧ ∃ file, file? = some file ∧
      ALLOWED_MIME_TYPES.contains file.type = true ∧
      file.size ≤ MAX_FILE_SIZE ∧
      env.blobWriteFails = false ∧ env.thumbFails = false ∧
      env.metaWriteFails = false ∧
      rec = assembleRecord env file ∧
      s' = { blobs := saveVideoBlob s.blobs env.freshId file
             meta := assembleRecord env file :: s.meta } := by
  cases isAdmin with
  | false => simp [handleFileUpload] at h
  | true =>
    cases file? with
    | none => simp [handleFileUpload] at h
    | some file =>
      by_cases hmem : file.type ∈ ALLOWED_MIME_TYPES
      · by_cases hsz : file.size > MAX_FILE_SIZE
        · simp [handleFileUpload, hmem, hsz] at h
        · cases hb : env.blobWriteFails with
          | true => simp [handleFileUpload, hmem, hsz, hb] at h
          | false =>
            cases hth : env.thumbFails with
            | true => simp [handleFileUpload, hmem, hsz, hb, hth] at h
            | false =>
              cases hm : env.metaWriteFails with
              | true => simp [handleFileUpload, hmem, hsz, hb, hth, hm] at h
              | false =>
                simp [handleFileUpload, hmem, hsz, hb, hth, hm,
                  Prod.mk.injEq] at h
                exact ⟨rfl, file, rfl, by simp [hmem], Nat.not_lt.mp hsz,
                  rfl, rfl, rfl, h.1.symm, h.2.symm⟩
      · simp [handleFileUpload, hmem] at h

theorem find?_map_update (l : List VideoMetadata) (vid : String)
    (c : Comment) (v : VideoMetadata)
    (h : l.find? (fun w => w.id == vid) = some v) :
    (l.map (fun w =>
        if w.id == vid then
          { w with comments := some (w.comments.getD [] ++ [c]) }
        else w)).find? (fun w => w.id == vid) =
      some { v with comments := some (v.comments.getD [] ++ [c]) } := by
  induction l with
  | nil => simp at h
  | cons hd tl ih =>
    rw [List.find?_cons] at h
    cases hh : (hd.id == vid) with
    | true =>
      rw [hh] at h
      have hv : hd = v := Option.some.inj h
      subst hv
      have heq : hd.id = vid := by simpa using hh
      simp [List.find?_cons, heq]
    | false =>
      rw [hh] at h
      simp only [List.map_cons, hh, Bool.false_eq_true, if_false]
      rw [List.find?_cons, hh]
      exact ih h

/-! Preservation of the blob-consistency invariant by each operation. -/

theorem blobConsistent_save (s : Stores) (i : String) (f : VFile)
    (h : blobConsistent s = true) :
    blobConsistent { s with blobs := saveVideoBlob s.blobs i f } = true := by
  simp only [blobConsistent, List.all_eq_true] at *
  intro v hv
  by_cases hid : v.id = i
  · rw [hid, getVideoBlob_save_self]
    rfl
  · rw [getVideoBlob_save_ne s.blobs i v.id f hid]
    exact h v hv

theorem blobConsistent_success (s : Stores) (env : UploadEnv) (file : VFile)
    (h : blobConsistent s = true) :
    blobConsistent
      { blobs := saveVideoBlob s.blobs env.freshId file
        meta := assembleRecord env file :: s.meta } = true := by
  simp only [blobConsistent, List.all_eq_true] at *
  intro v hv
  rcases List.mem_cons.mp hv with hv1 | hv2
  · subst hv1
    have hid : (assembleRecord env file).id = env.freshId := rfl
    rw [hid, getVideoBlob_save_self]
    rfl
  · by_cases hid : v.id = env.freshId
    · rw [hid, getVideoBlob_save_self]
      rfl
    · rw [getVideoBlob_save_ne s.blobs env.freshId v.id file hid]
      exact h v hv2

theorem blobConsistent_upload (a : Bool) (file? : Option VFile)
    (env : UploadEnv) (s : Stores) (h : blobConsistent s = true) :
    blobConsistent (handleFileUpload a file? env s).2 = true := by
  cases a with
  | false => simpa [handleFileUpload]
  | true =>
    cases file? with
    | none => simpa [handleFileUpload]
    | some file =>
      by_cases hmem : file.type ∈ ALLOWED_MIME_TYPES
      · by_cases hsz : file.size > MAX_FILE_SIZE
        · simpa [handleFileUpload, hmem, hsz]
        · cases hb : env.blobWriteFails with
          | true => simpa [handleFileUpload, hmem, hsz, hb]
          | false =>
            cases hth : env.thumbFails with
            | true =>
              have := blobConsistent_save s env.freshId file h
              simpa [handleFileUpload, hmem, hsz, hb, hth]
            | false =>
              cases hm : env.metaWriteFails with
              | true =>
                have := blobConsistent_save s env.freshId file h
                simpa [handleFileUpload, hmem, hsz, hb, hth, hm]
              | false =>
                have := blobConsistent_success s env file h
                simpa [handleFileUpload, hmem, hsz, hb, hth, hm]
      · simpa [handleFileUpload, hmem]

theorem blobConsistent_addComment (a : Bool) (vid text cid ts : String)
    (s : Stores) (h : blobConsistent s = true) :
    blobConsistent (handleAddComment a vid text cid ts s) = true := by
  simp only [handleAddComment, blobConsistent, List.all_eq_true] at *
  intro v hv
  rcases List.mem_map.mp hv with ⟨w, hw, hfw⟩
  subst hfw
  have hid :
      (if (w.id == vid) = true then
        { w with comments := some (w.comments.getD [] ++ [mkComment cid a text ts]) }
      else w).id = w.id := by
    by_cases hww : (w.id == vid) = true
    · simp [hww]
    · simp [hww]
  rw [hid]
  exact h w hw

theorem blobConsistent_confirmDeletion (a : Bool)
    (pd : Option PendingDeletion) (s : Stores)
    (h : blobConsistent s = true) :
    blobConsistent (confirmDeletion a pd s) = true := by
  cases a with
  | false => simpa [confirmDeletion]
  | true =>
    cases pd with
    | none => simpa [confirmDeletion]
    | some p =>
      by_cases hall : p.id = "all"
      · simp [confirmDeletion, hall, blobConsistent, clearAllBlobs]
      · simp only [confirmDeletion, Bool.not_true, Bool.false_eq_true,
          if_false]
        have hcond : (p.id == "all") = false := by
          simp [hall]
        simp only [hcond, Bool.false_eq_true, if_false]
        simp only [blobConsistent, List.all_eq_true] at h ⊢
        intro v hv
        have hvm := List.mem_filter.mp hv
        have hvid : v.id ≠ p.id := by simpa using hvm.2
        rw [getVideoBlob_delete_ne s.blobs p.id v.id hvid]
        exact h v hvm.1

/-! The claims. -/

/-- Claim C1: for every upload call with a selected file, if the actor is
not admin, or the file's MIME type is outside the fixed allow-list, or
the file size exceeds 100 MiB, the upload fails with the corresponding
error — admin checked first, then type, then size, short-circuiting —
and both the blob store and the metadata store are returned unchanged
(the whole `Stores` value is exactly the input `s`). -/
theorem upload_validation_errors_no_side_effects
    (isAdmin : Bool) (file : VFile) (env : UploadEnv) (s : Stores)
    (h : ¬(isAdmin = true ∧ file.type ∈ ALLOWED_MIME_TYPES ∧
           file.size ≤ MAX_FILE_SIZE)) :
    handleFileUpload isAdmin (some file) env s =
      ((if isAdmin = false then UploadOutcome.unauthorized
        else if file.type ∉ ALLOWED_MIME_TYPES then UploadOutcome.invalidType
        else UploadOutcome.tooLarge), s) := by
  cases isAdmin with
  | false => simp [handleFileUpload]
  | true =>
    by_cases hmem : file.type ∈ ALLOWED_MIME_TYPES
    · have hsz : ¬ file.size ≤ MAX_FILE_SIZE := by tauto
      have hgt : file.size > MAX_FILE_SIZE := Nat.not_le.mp hsz
      simp [handleFileUpload, hmem, hgt]
    · simp [handleFileUpload, hmem]

/-- A file that is both of a disallowed type and over the size ceiling:
the type error wins, witnessing the check order. -/
def badFile : VFile :=
  { name := "huge.exe", size := 200 * 1024 * 1024
    type := "application/x-msdownload" }

/-- Witness for C1 at a concrete input. -/
theorem upload_validation_errors_witness :
    handleFileUpload true (some badFile) env0 s0 =
      (UploadOutcome.invalidType, s0) := by
  have h := upload_validation_errors_no_side_effects true badFile env0 s0
    (by decide)
  exact h.trans (by decide)

/-- Claim C3: if validation passed and any of the storage steps throws
(blob write, thumbnail generation, or the metadata commit — the analysis
step itself never throws), the upload reports the single generic
`storageFailure` ("Critical storage error."), the metadata store is left
unchanged, and no rollback of a blob already written in step 2 is
performed: the blob store keeps the new blob unless the blob write
itself was the failing step. -/
theorem upload_storage_failure_no_rollback
    (file : VFile) (env : UploadEnv) (s : Stores)
    (hmem : file.type ∈ ALLOWED_MIME_TYPES)
    (hsz : file.size ≤ MAX_FILE_SIZE)
    (hf : env.blobWriteFails = true ∨ env.thumbFails = true ∨
      env.metaWriteFails = true) :
    (handleFileUpload true (some file) env s).1 =
      UploadOutcome.storageFailure ∧
    (handleFileUpload true (some file) env s).2.meta = s.meta ∧
    (handleFileUpload true (some file) env s).2.blobs =
      (if env.blobWriteFails then s.blobs
       else saveVideoBlob s.blobs env.freshId file) := by
  have hlt : ¬ file.size > MAX_FILE_SIZE := Nat.not_lt.mpr hsz
  cases hb : env.blobWriteFails with
  | true => simp [handleFileUpload, hmem, hlt, hb]
  | false =>
    cases hth : env.thumbFails with
    | true => simp [handleFileUpload, hmem, hlt, hb, hth]
    | false =>
      cases hm : env.metaWriteFails with
      | true => simp [handleFileUpload, hmem, hlt, hb, hth, hm]
      | false => simp [hb, hth, hm] at hf

/-- Environment where the thumbnail step throws. -/
def env3 : UploadEnv := { env0 with thumbFails := true }

/-- Witness for C3 at a concrete input. -/
theorem upload_storage_failure_witness :
    (handleFileUpload true (some file0) env3 s0).1 =
      UploadOutcome.storageFailure ∧
    (handleFileUpload true (some file0) env3 s0).2.meta = s0.meta ∧
    (handleFileUpload true (some file0) env3 s0).2.blobs =
      (if env3.blobWriteFails then s0.blobs
       else saveVideoBlob s0.blobs env3.freshId file0) :=
  upload_storage_failure_no_rollback file0 env3 s0 (by decide) (by decide)
    (Or.inr (Or.inl rfl))

/-- Claim C6: every successful upload prepends its new record to the
front of the persisted collection, leaving the relative order of all
previously stored records unchanged; hence after N sequential successful
uploads `loadAll()` returns the records newest-first. -/
theorem upload_prepends_newest_first
    (isAdmin : Bool) (file? : Option VFile) (env : UploadEnv) (s : Stores)
    (rec : VideoMetadata) (s' : Stores)
    (h : handleFileUpload isAdmin file? env s =
      (UploadOutcome.success rec, s')) :
    loadAll s' = rec :: loadAll s := by
  obtain ⟨-, file, -, -, -, -, -, -, hrec, hs'⟩ :=
    upload_success_inv _ _ _ _ _ _ h
  subst hrec
  subst hs'
  rfl

/-- Witness for C6 at a concrete input. -/
theorem upload_prepends_witness :
    loadAll upload0Stores = upload0Rec :: loadAll s0 :=
  upload_prepends_newest_first true (some file0) env0 s0 upload0Rec
    upload0Stores rfl

/-- Claim C4: after a successful upload the new record's id is
retrievable from both the blob store and the metadata store, and its
`comments` field is present as the empty sequence (its `tags` field is a
total, possibly empty, sequence by construction); moreover the
blob-consistency invariant — every record id in the metadata collection
has a blob — holds after the upload and is preserved by a subsequent
comment append, deletion, and further upload (any outcome). -/
theorem upload_invariants_preserved
    (isAdmin : Bool) (file? : Option VFile) (env : UploadEnv) (s : Stores)
    (rec : VideoMetadata) (s' : Stores)
    (a2 : Bool) (vid2 text2 cid2 ts2 : String)
    (a3 : Bool) (pd3 : Option PendingDeletion)
    (a4 : Bool) (file4? : Option VFile) (env4 : UploadEnv)
    (hcons : blobConsistent s = true)
    (hsucc : handleFileUpload isAdmin file? env s =
      (UploadOutcome.success rec, s')) :
    (getVideoBlob s'.blobs rec.id).isSome = true ∧
    (findVideo s' rec.id).isSome = true ∧
    rec.comments = some [] ∧
    blobConsistent s' = true ∧
    blobConsistent (handleAddComment a2 vid2 text2 cid2 ts2 s') = true ∧
    blobConsistent (confirmDeletion a3 pd3 s') = true ∧
    blobConsistent (handleFileUpload a4 file4? env4 s').2 = true := by
  obtain ⟨hA, file, hfile, hm, hszle, hb, hth, hmw, hrec, hs'⟩ :=
    upload_success_inv _ _ _ _ _ _ hsucc
  subst hrec
  subst hs'
  have hid : (assembleRecord env file).id = env.freshId := rfl
  have hinv : blobConsistent
      { blobs := saveVideoBlob s.blobs env.freshId file
        meta := assembleRecord env file :: s.meta } = true :=
    blobConsistent_success s env file hcons
  refine ⟨?_, ?_, rfl, hinv, blobConsistent_addComment _ _ _ _ _ _ hinv,
    blobConsistent_confirmDeletion _ _ _ hinv,
    blobConsistent_upload _ _ _ _ hinv⟩
  · rw [hid, getVideoBlob_save_self]
    rfl
  · simp [findVideo, List.find?_cons]

/-- Witness for C4 at a concrete input. -/
theorem upload_invariants_witness :
    (getVideoBlob upload0Stores.blobs upload0Rec.id).isSome = true ∧
    (findVideo upload0Stores upload0Rec.id).isSome = true ∧
    upload0Rec.comments = some [] ∧
    blobConsistent upload0Stores = true ∧
    blobConsistent
      (handleAddComment false "id-1" "hello" "c-1" "ts-1" upload0Stores) =
      true ∧
    blobConsistent
      (confirmDeletion true (some { id := "id-1", title := "clip" })
        upload0Stores) = true ∧
    blobConsistent (handleFileUpload false none env0 upload0Stores).2 =
      true :=
  upload_invariants_preserved true (some file0) env0 s0 upload0Rec
    upload0Stores false "id-1" "hello" "c-1" "ts-1" true
    (some { id := "id-1", title := "clip" }) false none env0
    (by decide) rfl

/-- Definition following the spec wording, for comparison with the code:
"the filename without its extension" is everything before the LAST dot
(the whole name when there is no dot). -/
def fileNameWithoutExtension (s : String) : String :=
  let parts := jsSplit '.' s
  if parts.length ≤ 1 then s else String.intercalate "." parts.dropLast

/-- Claim C2, counterexample: for the original filename "a.b.mp4" the
fallback title produced on analysis failure is "a" — the part before the
FIRST dot — while the filename without its extension is "a.b", so the
claim "title = the filename without its extension" fails as stated. -/
theorem analyze_title_not_extension_cex :
    fileNameWithoutExtension "a.b.mp4" = "a.b" ∧
    (analyzeVideoThumbnail GeminiOutcome.callFailed "a.b.mp4").title =
      some "a" ∧
    (some "a" : Option String) ≠
      some (fileNameWithoutExtension "a.b.mp4") := by
  decide

/-- Claim C2 as amended: whenever the remote call fails or the response
text is unparseable, `analyzeVideoThumbnail` returns exactly the
deterministic fallback — title = the portion of the filename before its
FIRST dot (which equals the filename without its extension only when the
base name contains no dot), the fixed placeholder description, and the
single fixed tag list ["video"] — and (being a total function) never
raises; in particular for "clip.mp4" the fallback title is "clip". -/
theorem analyze_failure_fallback (fileName : String) :
    analyzeVideoThumbnail GeminiOutcome.callFailed fileName =
      geminiFallback fileName ∧
    analyzeVideoThumbnail GeminiOutcome.unparseable fileName =
      geminiFallback fileName ∧
    geminiFallback fileName =
      { title := some ((jsSplit '.' fileName).headD "")
        description := some "No description generated."
        tags := some ["video"] } ∧
    analyzeVideoThumbnail GeminiOutcome.callFailed "clip.mp4" =
      { title := some "clip"
        description := some "No description generated."
        tags := some ["video"] } :=
  ⟨rfl, rfl, rfl, by decide⟩

/-- Analysis data with an empty title, as the C5 counterexample's remote
response. -/
def aiData5 : AiData :=
  { title := some "", description := some "A neat video."
    tags := some ["demo"] }

/-- Environment whose analysis call succeeds but returns an empty title:
the orchestrator then substitutes `file.name`, not the analysis value. -/
def env5 : UploadEnv :=
  { env0 with aiOutcome := GeminiOutcome.parsed aiData5 }

/-- The record assembled by the C5 counterexample upload. -/
def rec5 : VideoMetadata := assembleRecord env5 file0

/-- Claim C5, counterexample: the Analysis Client returns title `""`,
but the assembled record's title is "clip.mp4" — the orchestrator
re-derives a fallback (`aiData.title || file.name`) during record
assembly, so the record's title is NOT exactly the analysis value. -/
theorem record_not_exactly_analysis_cex :
    (handleFileUpload true (some file0) env5 s0).1 =
      UploadOutcome.success rec5 ∧
    (analyzeVideoThumbnail env5.aiOutcome file0.name).title = some "" ∧
    rec5.title = "clip.mp4" ∧
    rec5.title ≠ "" := by
  decide

/-- Claim C5 as amended: for every successful upload the record's title,
description and tags are derived from the Analysis Client's values
through the orchestrator's own JS `||` defaulting — the record equals
the analysis values exactly whenever the title and description are
present and non-empty and the tags array is present, but when a field is
absent (or, for the two strings, empty) the orchestrator substitutes its
own defaults (`file.name`, "Uploaded video.", `[]`), re-deriving a
fallback during record assembly. -/
theorem record_assembly_from_analysis
    (isAdmin : Bool) (file : VFile) (env : UploadEnv) (s : Stores)
    (rec : VideoMetadata) (s' : Stores)
    (h : handleFileUpload isAdmin (some file) env s =
      (UploadOutcome.success rec, s')) :
    rec.title =
      jsStringOr (analyzeVideoThumbnail env.aiOutcome file.name).title
        file.name ∧
    rec.description =
      jsStringOr (analyzeVideoThumbnail env.aiOutcome file.name).description
        "Uploaded video." ∧
    rec.tags = (analyzeVideoThumbnail env.aiOutcome file.name).tags.getD [] ∧
    (∀ t, (analyzeVideoThumbnail env.aiOutcome file.name).title = some t →
      t ≠ "" → rec.title = t) ∧
    (∀ d,
      (analyzeVideoThumbnail env.aiOutcome file.name).description = some d →
      d ≠ "" → rec.description = d) ∧
    (∀ tg, (analyzeVideoThumbnail env.aiOutcome file.name).tags = some tg →
      rec.tags = tg) := by
  obtain ⟨-, file', hfile, -, -, -, -, -, hrec, -⟩ :=
    upload_success_inv _ _ _ _ _ _ h
  have hf : file = file' := Option.some.inj hfile
  subst hf
  subst hrec
  have h1 : (assembleRecord env file).title =
      jsStringOr (analyzeVideoThumbnail env.aiOutcome file.name).title
        file.name := rfl
  have h2 : (assembleRecord env file).description =
      jsStringOr (analyzeVideoThumbnail env.aiOutcome file.name).description
        "Uploaded video." := rfl
  have h3 : (assembleRecord env file).tags =
      (analyzeVideoThumbnail env.aiOutcome file.name).tags.getD [] := rfl
  refine ⟨h1, h2, h3, ?_, ?_, ?_⟩
  · intro t ht hne
    rw [h1, ht]
    simp [jsStringOr, hne]
  · intro d hd hne
    rw [h2, hd]
    simp [jsStringOr, hne]
  · intro tg htg
    rw [h3, htg]
    rfl

/-- Witness for the amended C5 at a concrete input. -/
theorem record_assembly_witness :
    upload0Rec.title =
      jsStringOr (analyzeVideoThumbnail env0.aiOutcome file0.name).title
        file0.name ∧
    upload0Rec.description =
      jsStringOr
        (analyzeVideoThumbnail env0.aiOutcome file0.name).description
        "Uploaded video." ∧
    upload0Rec.tags =
      (analyzeVideoThumbnail env0.aiOutcome file0.name).tags.getD [] :=
  let h := record_assembly_from_analysis true file0 env0 s0 upload0Rec
    upload0Stores rfl
  ⟨h.1, h.2.1, h.2.2.1⟩

/-- A stored record whose id is the literal string "all". -/
def recAll : VideoMetadata :=
  { id := "all", title := "First", description := "d"
    fileName := "all.mp4", originalName := "first.mp4", size := 5
    type := "video/mp4", uploadDate := "2026-01-01", thumbnailUrl := ""
    videoUrl := "", aiAnalysis := none, tags := [], comments := some [] }

/-- A second, unrelated stored record. -/
def recB : VideoMetadata :=
  { recAll with id := "b-2", title := "Second", fileName := "b-2.mp4" }

/-- A consistent two-video state containing a record with id "all". -/
def s7 : Stores :=
  { blobs := [("all", file0), ("b-2", file0)], meta := [recAll, recB] }

/-- Claim C7, counterexample: the TS type of `pendingDeletion.id` is
`string | 'all'`, i.e. a plain string, and `confirmDeletion` compares it
with the bulk-purge sentinel `"all"`; for a collection containing a
video whose id is the string "all", deleting that video takes the purge
branch and also erases the other record `recB` and its blob, so "every
other record's id, fields, and comment sequence remain unchanged" fails
as stated. -/
theorem delete_sentinel_id_cex :
    recAll ∈ s7.meta ∧ recAll.id = "all" ∧
    recB ∈ s7.meta ∧ recB.id ≠ "all" ∧
    confirmDeletion true (some { id := recAll.id, title := recAll.title })
      s7 = { blobs := [], meta := [] } ∧
    findVideo
      (confirmDeletion true
        (some { id := recAll.id, title := recAll.title }) s7) recB.id =
      none ∧
    getVideoBlob
      (confirmDeletion true
        (some { id := recAll.id, title := recAll.title }) s7).blobs
      recB.id = none := by
  decide

/-- Claim C7 as amended: for every collection containing a video with id
X, where X is not the reserved bulk-purge sentinel string "all" (the ids
the code generates are random UUIDs, which never collide with it),
deleting video X as admin removes X's blob from the blob store and X's
entry from the metadata collection, while every other record — its id,
fields, comment sequence, and relative order — and every other blob are
left unchanged. -/
theorem delete_single_video_frame (s : Stores) (X ti : String)
    (hX : X ≠ "all") (_hmem : X ∈ s.meta.map (fun v => v.id)) :
    getVideoBlob
      (confirmDeletion true (some { id := X, title := ti }) s).blobs X =
      none ∧
    findVideo (confirmDeletion true (some { id := X, title := ti }) s) X =
      none ∧
    (confirmDeletion true (some { id := X, title := ti }) s).meta =
      s.meta.filter (fun v => v.id != X) ∧
    (∀ y, y ≠ X →
      getVideoBlob
        (confirmDeletion true (some { id := X, title := ti }) s).blobs y =
        getVideoBlob s.blobs y) ∧
    (∀ v ∈ s.meta, v.id ≠ X →
      v ∈ (confirmDeletion true (some { id := X, title := ti }) s).meta) := by
  have hco : (X == "all") = false := by simp [hX]
  have hcd : confirmDeletion true (some { id := X, title := ti }) s =
      { blobs := deleteVideoBlob s.blobs X
        meta := s.meta.filter (fun v => v.id != X) } := by
    simp [confirmDeletion, hco]
  rw [hcd]
  refine ⟨getVideoBlob_delete_self s.blobs X, ?_, rfl, ?_, ?_⟩
  · show (s.meta.filter (fun v => v.id != X)).find? (fun v => v.id == X) =
      none
    rw [List.find?_eq_none]
    intro v hv
    have hne := (List.mem_filter.mp hv).2
    simp only [bne_iff_ne, ne_eq] at hne
    simp [hne]
  · intro y hy
    exact getVideoBlob_delete_ne s.blobs X y hy
  · intro v hv hvX
    exact List.mem_filter.mpr ⟨hv, by simp [hvX]⟩

/-- Witness for the amended C7 at a concrete input. -/
theorem delete_single_video_witness :
    getVideoBlob
      (confirmDeletion true (some { id := "b-2", title := "Second" })
        s7).blobs "b-2" = none ∧
    findVideo
      (confirmDeletion true (some { id := "b-2", title := "Second" }) s7)
      "b-2" = none ∧
    (confirmDeletion true (some { id := "b-2", title := "Second" })
      s7).meta = s7.meta.filter (fun v => v.id != "b-2") :=
  let h := delete_single_video_frame s7 "b-2" "Second" (by decide)
    (by decide)
  ⟨h.1, h.2.1, h.2.2.1⟩

/-- A single-video state used by the comment witnesses. -/
def recC : VideoMetadata :=
  { recAll with id := "v-1", title := "Clip", fileName := "v-1.mp4" }

/-- Stores holding exactly the video "v-1" with an empty comment list. -/
def s8 : Stores := { blobs := [("v-1", file0)], meta := [recC] }

/-- Claim C8: a comment posted by a non-admin session to an existing
video is created with `isAdmin = false` (the spec's `postedAsAdmin`) and
the fixed guest label "Guest User", both captured at post time; it is
appended at the END of the target record's comments sequence, and a
later append — here under a changed, admin role — goes after it and
leaves the earlier comment unchanged, so N sequential appends to the
same video appear in append order. -/
theorem guest_comment_captured_and_appended
    (s : Stores) (videoId text cid ts text2 cid2 ts2 : String)
    (v : VideoMetadata) (hv : findVideo s videoId = some v) :
    (mkComment cid false text ts).isAdmin = false ∧
    (mkComment cid false text ts).author = "Guest User" ∧
    findVideo (handleAddComment false videoId text cid ts s) videoId =
      some { v with
        comments := some (v.comments.getD [] ++
          [mkComment cid false text ts]) } ∧
    findVideo
      (handleAddComment true videoId text2 cid2 ts2
        (handleAddComment false videoId text cid ts s)) videoId =
      some { v with
        comments := some (v.comments.getD [] ++
          [mkComment cid false text ts, mkComment cid2 true text2 ts2]) } := by
  have h1 := find?_map_update s.meta videoId (mkComment cid false text ts)
    v hv
  refine ⟨rfl, rfl, h1, ?_⟩
  have h2 := find?_map_update
    (handleAddComment false videoId text cid ts s).meta videoId
    (mkComment cid2 true text2 ts2)
    { v with
      comments := some (v.comments.getD [] ++
        [mkComment cid false text ts]) }
    h1
  exact h2.trans (by simp [List.append_assoc])

/-- Witness for C8 at a concrete input. -/
theorem guest_comment_witness :
    (mkComment "c-1" false "nice" "ts-1").isAdmin = false ∧
    (mkComment "c-1" false "nice" "ts-1").author = "Guest User" ∧
    findVideo (handleAddComment false "v-1" "nice" "c-1" "ts-1" s8)
      "v-1" =
      some { recC with
        comments := some (recC.comments.getD [] ++
          [mkComment "c-1" false "nice" "ts-1"]) } ∧
    findVideo
      (handleAddComment true "v-1" "later" "c-2" "ts-2"
        (handleAddComment false "v-1" "nice" "c-1" "ts-1" s8)) "v-1" =
      some { recC with
        comments := some (recC.comments.getD [] ++
          [mkComment "c-1" false "nice" "ts-1",
           mkComment "c-2" true "later" "ts-2"]) } :=
  guest_comment_captured_and_appended s8 "v-1" "nice" "c-1" "ts-1"
    "later" "c-2" "ts-2" recC rfl

/-- Claim C9: appending a comment for a video id that is not present in
the metadata collection is a silent no-op — the returned state equals
the input state (every record and the blob store unchanged), and the
total function raises no error. -/
theorem comment_missing_video_noop (a : Bool)
    (videoId text cid ts : String) (s : Stores)
    (h : ∀ v ∈ s.meta, v.id ≠ videoId) :
    handleAddComment a videoId text cid ts s = s := by
  have hmap : ∀ (l : List VideoMetadata), (∀ v ∈ l, v.id ≠ videoId) →
      l.map (fun v =>
        if v.id == videoId then
          { v with
            comments := some (v.comments.getD [] ++
              [mkComment cid a text ts]) }
        else v) = l := by
    intro l hl
    induction l with
    | nil => rfl
    | cons hd tl ih =>
      have hhd : (hd.id == videoId) = false := by
        simp [hl hd (List.mem_cons_self hd tl)]
      simp only [List.map_cons, hhd, Bool.false_eq_true, if_false]
      rw [ih (fun v hv => hl v (List.mem_cons_of_mem hd hv))]
  show ({ s with meta := s.meta.map _ } : Stores) = s
  rw [hmap s.meta h]

/-- Witness for C9 at a concrete input. -/
theorem comment_missing_witness :
    handleAddComment false "missing" "hey" "c-9" "ts-9" s8 = s8 :=
  comment_missing_video_noop false "missing" "hey" "c-9" "ts-9" s8
    (by decide)

/-- Claim C10, counterexample: submitting the raw text " hi " (trim
non-empty) through the public comment-submission interface persists the
comment with text " hi " — not equal to its own trim — because
`handleCommentSubmit` only CHECKS `commentText.trim()` and passes the
raw `commentText` through, so the claim "text equal to its own trim"
fails as stated. -/
theorem comment_text_untrimmed_cex :
    handleCommentSubmit " hi " = some " hi " ∧
    findVideo (submitComment false "v-1" " hi " "c-3" "ts-3" s8) "v-1" =
      some { recC with
        comments := some [mkComment "c-3" false " hi " "ts-3"] } ∧
    (mkComment "c-3" false " hi " "ts-3").text = " hi " ∧
    jsTrim " hi " ≠ " hi " := by
  decide

/-- Claim C10 as amended: every comment appended through the public
comment-submission interface has text whose TRIM is non-empty (hence the
text itself is non-empty); the interface passes the raw input through,
so the stored text equals the raw submission and may retain leading or
trailing whitespace — it need not equal its own trim. -/
theorem comment_text_nonempty_trimcheck
    (raw t : String) (a : Bool) (vid cid ts : String) (s : Stores)
    (v : VideoMetadata)
    (h : handleCommentSubmit raw = some t)
    (hv : findVideo s vid = some v) :
    t = raw ∧ jsTrim t ≠ "" ∧ t ≠ "" ∧
    findVideo (submitComment a vid raw cid ts s) vid =
      some { v with
        comments := some (v.comments.getD [] ++
          [mkComment cid a t ts]) } ∧
    (mkComment cid a t ts).text = t := by
  by_cases htr : jsTrim raw = ""
  · simp [handleCommentSubmit, htr] at h
  · have hts : t = raw := by
      simp [handleCommentSubmit, htr] at h
      exact h.symm
    subst hts
    have hne : t ≠ "" := fun he => htr (by rw [he]; rfl)
    refine ⟨rfl, htr, hne, ?_, rfl⟩
    have hsub : submitComment a vid t cid ts s =
        handleAddComment a vid t cid ts s := by
      simp [submitComment, handleCommentSubmit, htr]
    rw [hsub]
    exact find?_map_update s.meta vid (mkComment cid a t ts) v hv

/-- Witness for the amended C10 at a concrete input. -/
theorem comment_text_witness :
    (" hola " : String) = " hola " ∧ jsTrim " hola " ≠ "" ∧
    (" hola " : String) ≠ "" ∧
    findVideo (submitComment false "v-1" " hola " "c-4" "ts-4" s8)
      "v-1" =
      some { recC with
        comments := some (recC.comments.getD [] ++
          [mkComment "c-4" false " hola " "ts-4"]) } ∧
    (mkComment "c-4" false " hola " "ts-4").text = " hola " :=
  comment_text_nonempty_trimcheck " hola " " hola " false "v-1" "c-4"
    "ts-4" s8 recC (by decide) rfl

end NovaStream
